import Mathlib

/-!
Verification of the thread-wrapper daemon (eHonnef/thread-cpp).

The repository contains three design iterations of the same active-object
worker class:

* `src/src/Daemon.cc` — the earliest iteration (`Daemon<T>`): a plain
  `std::queue` (FIFO) mailbox and a polling execution loop.
* `src/include/ThreadWrapper/Daemon.cc` — `CDaemon<T>` with a
  `std::priority_queue` mailbox, a polling loop and suspend/resume.
* the condition-variable iteration of `CDaemon<T>` (header shipped in the
  repository, here `src/unnamed/part_003`): a `std::priority_queue`
  mailbox, a `std::condition_variable`-driven loop, sleep requests and
  graceful-drain shutdown (`Stop` joins the thread, the thread drains the
  queue in `ProcessThreadEpilogue` before setting `m_bFinished`).

This file embeds the three variants shallowly.  Mutexed shared state
becomes explicit state passing; the worker thread body becomes a small-step
transition function over an explicit program counter; `Process` (pure
virtual, supplied by a specialization) is modelled as appending the
dequeued item to a `processed` log; the real-time blocking calls
(`sleep_for`) are modelled as appending the requested duration to a
`slept` log.  The `dtEnqueuedTime` field of the condition-variable
variant's `SData` is wall-clock data used only for the `GetLastDelay`
metric and is omitted, as no claim concerns it.
-/

/-- Work item (`struct SData` of `CDaemon<T>`, `struct Data` of the earliest
`Daemon<T>`): a priority, a message-id discriminator and a payload. -/
structure SData (T : Type) where
  nPriority : Int
  nMessageID : Int
  Data : T
deriving Repr, DecidableEq

/-- Comparison policy `CPriorityQueueComparison::operator()`:
`lData.nPriority > rData.nPriority`.  `std::priority_queue` with this
comparison is a max-heap for it, hence `top()` yields an element with the
smallest `nPriority`. -/
def CPriorityQueueComparison {T : Type} (lData rData : SData T) : Bool :=
  decide (lData.nPriority > rData.nPriority)

/-- Observable behaviour of `m_Queue.top();  m_Queue.pop()` on the
`std::priority_queue` with `CPriorityQueueComparison`: remove and return an
element that no other element beats under the comparison, i.e. one with
minimal `nPriority`.  The queue contents are kept as a list in arrival
order; among equal priorities the earliest-pushed element is returned (the
C++ heap leaves the tie order unspecified, and no claim depends on it). -/
def popMin {T : Type} : List (SData T) → Option (SData T × List (SData T))
  | [] => none
  | x :: xs =>
    match popMin xs with
    | none => some (x, [])
    | some (m, rest) =>
      if CPriorityQueueComparison x m then some (m, x :: rest) else some (x, xs)

theorem popMin_none_iff {T : Type} (q : List (SData T)) :
    popMin q = none ↔ q = [] := by
  cases q with
  | nil => simp [popMin]
  | cons x xs =>
    simp only [popMin]
    cases h : popMin xs with
    | none => simp
    | some p =>
      obtain ⟨m, rest⟩ := p
      by_cases hc : CPriorityQueueComparison x m <;> simp [hc]

theorem popMin_length {T : Type} {q rest : List (SData T)} {x : SData T}
    (h : popMin q = some (x, rest)) : rest.length + 1 = q.length := by
  induction q generalizing x rest with
  | nil => simp [popMin] at h
  | cons a xs ih =>
    simp only [popMin] at h
    cases h' : popMin xs with
    | none =>
      rw [h'] at h
      have hxs : xs = [] := (popMin_none_iff xs).mp h'
      simp only [Option.some.injEq, Prod.mk.injEq] at h
      obtain ⟨rfl, rfl⟩ := h
      subst hxs
      simp
    | some p =>
      obtain ⟨m, r⟩ := p
      rw [h'] at h
      by_cases hc : CPriorityQueueComparison a m
      · simp [hc] at h
        obtain ⟨rfl, rfl⟩ := h
        have := ih h'
        simp [List.length_cons]
        omega
      · simp [hc] at h
        obtain ⟨rfl, rfl⟩ := h
        simp

theorem popMin_perm {T : Type} {q rest : List (SData T)} {x : SData T}
    (h : popMin q = some (x, rest)) : q.Perm (x :: rest) := by
  induction q generalizing x rest with
  | nil => simp [popMin] at h
  | cons a xs ih =>
    simp only [popMin] at h
    cases h' : popMin xs with
    | none =>
      rw [h'] at h
      have hxs : xs = [] := (popMin_none_iff xs).mp h'
      simp only [Option.some.injEq, Prod.mk.injEq] at h
      obtain ⟨rfl, rfl⟩ := h
      subst hxs
      exact List.Perm.refl _
    | some p =>
      obtain ⟨m, r⟩ := p
      rw [h'] at h
      by_cases hc : CPriorityQueueComparison a m
      · simp [hc] at h
        obtain ⟨rfl, rfl⟩ := h
        have hperm : xs.Perm (m :: r) := ih h'
        exact (hperm.cons a).trans (List.Perm.swap m a r)
      · simp [hc] at h
        obtain ⟨rfl, rfl⟩ := h
        exact List.Perm.refl _

theorem popMin_min {T : Type} {q rest : List (SData T)} {x : SData T}
    (h : popMin q = some (x, rest)) :
    ∀ y ∈ q, x.nPriority ≤ y.nPriority := by
  induction q generalizing x rest with
  | nil => simp [popMin] at h
  | cons a xs ih =>
    simp only [popMin] at h
    cases h' : popMin xs with
    | none =>
      rw [h'] at h
      have hxs : xs = [] := (popMin_none_iff xs).mp h'
      simp only [Option.some.injEq, Prod.mk.injEq] at h
      obtain ⟨rfl, rfl⟩ := h
      subst hxs
      intro y hy
      simp only [List.mem_singleton] at hy
      rw [hy]
    | some p =>
      obtain ⟨m, r⟩ := p
      rw [h'] at h
      by_cases hc : CPriorityQueueComparison a m
      · simp [hc] at h
        obtain ⟨rfl, rfl⟩ := h
        have hm : m.nPriority < a.nPriority := by
          simpa [CPriorityQueueComparison] using hc
        intro y hy
        rcases List.mem_cons.mp hy with hya | hyx
        · rw [hya]; exact le_of_lt hm
        · exact ih h' y hyx
      · simp [hc] at h
        obtain ⟨rfl, rfl⟩ := h
        have hm : a.nPriority ≤ m.nPriority := by
          simpa [CPriorityQueueComparison] using hc
        intro y hy
        rcases List.mem_cons.mp hy with hya | hyx
        · rw [hya]
        · exact le_trans hm (ih h' y hyx)

/-- Sequence of items obtained by popping the priority queue until empty
(as the graceful-drain `ProcessThreadEpilogue` does). -/
def drainList {T : Type} (q : List (SData T)) : List (SData T) :=
  match h : popMin q with
  | none => []
  | some (x, rest) => x :: drainList rest
termination_by q.length
decreasing_by
  have := popMin_length h
  omega

theorem drainList_eq_none {T : Type} {q : List (SData T)}
    (h : popMin q = none) : drainList q = [] := by
  rw [drainList, h]

theorem drainList_eq_some {T : Type} {q rest : List (SData T)} {x : SData T}
    (h : popMin q = some (x, rest)) : drainList q = x :: drainList rest := by
  rw [drainList, h]

theorem drainList_perm {T : Type} (q : List (SData T)) :
    (drainList q).Perm q := by
  cases h : popMin q with
  | none =>
    rw [drainList_eq_none h, (popMin_none_iff q).mp h]
  | some p =>
    obtain ⟨x, rest⟩ := p
    rw [drainList_eq_some h]
    have ih := drainList_perm rest
    exact (ih.cons x).trans (popMin_perm h).symm
termination_by q.length
decreasing_by
  have := popMin_length h
  omega

theorem drainList_sorted {T : Type} (q : List (SData T)) :
    List.Pairwise (fun a b => a.nPriority ≤ b.nPriority) (drainList q) := by
  cases h : popMin q with
  | none => rw [drainList_eq_none h]; exact List.Pairwise.nil
  | some p =>
    obtain ⟨x, rest⟩ := p
    rw [drainList_eq_some h]
    refine List.Pairwise.cons ?_ (drainList_sorted rest)
    intro y hy
    have hmem : y ∈ rest := ((drainList_perm rest).mem_iff).mp hy
    have hq : y ∈ q := ((popMin_perm h).mem_iff).mpr (List.mem_cons_of_mem x hmem)
    exact popMin_min h y hq
termination_by q.length
decreasing_by
  have := popMin_length h
  omega

theorem drainList_sorted_lt {T : Type} (q : List (SData T))
    (hnd : (q.map (fun d => d.nPriority)).Nodup) :
    List.Pairwise (fun a b => a.nPriority < b.nPriority) (drainList q) := by
  have hle := drainList_sorted q
  have hperm : ((drainList q).map (fun d => d.nPriority)).Perm
      (q.map (fun d => d.nPriority)) := (drainList_perm q).map _
  have hnd' : ((drainList q).map (fun d => d.nPriority)).Nodup :=
    (hperm.nodup_iff).mpr hnd
  have hpw : List.Pairwise (fun a b => a.nPriority ≠ b.nPriority) (drainList q) := by
    rw [List.Nodup, List.pairwise_map] at hnd'
    exact hnd'
  exact (hle.and hpw).imp (fun h => lt_of_le_of_ne h.1 h.2)

theorem drainList_unique {T : Type} (q q' : List (SData T))
    (hnd : (q.map (fun d => d.nPriority)).Nodup) (hp : q'.Perm q) :
    drainList q' = drainList q := by
  have h1 := drainList_sorted_lt q hnd
  have hnd' : (q'.map (fun d => d.nPriority)).Nodup := ((hp.map _).nodup_iff).mpr hnd
  have h2 := drainList_sorted_lt q' hnd'
  have hperm : (drainList q').Perm (drainList q) :=
    ((drainList_perm q').trans hp).trans (drainList_perm q).symm
  haveI : IsAntisymm (SData T) (fun a b => a.nPriority < b.nPriority) :=
    ⟨fun a b hab hba => absurd (lt_trans hab hba) (lt_irrefl _)⟩
  exact List.eq_of_perm_of_sorted hperm h2 h1

theorem drainList_length {T : Type} (q : List (SData T)) :
    (drainList q).length = q.length :=
  (drainList_perm q).length_eq

/-!
Condition-variable variant of `CDaemon<T>` (graceful-drain shutdown).

`CDaemonCV.DState` holds the mutexed/atomic shared state of one `CDaemon`
object; `CDaemonCV.Pc` is the program counter of the execution thread
inside `Execute`; `CDaemonCV.workerStep` is one small step of that thread.
`Process` invocations are logged in `processed`; `sleep_for` durations in
the loop are logged in `slept`.  The hook methods `ProcessThreadPreamble`,
`ProcessPreQueue` and `ProcessAfterQueue` have empty default bodies and are
modelled as such.
-/

namespace CDaemonCV

/-- Shared state of the condition-variable `CDaemon<T>`: the
`std::priority_queue` contents (in arrival order, popped via `popMin`), the
atomics `m_bIsRunning`, `m_bFinished`, `m_nSleepMs` and `m_bIsSleeping`,
plus the observation logs. -/
structure DState (T : Type) where
  queue : List (SData T)
  bIsRunning : Bool
  bFinished : Bool
  nSleepMs : Int
  bIsSleeping : Bool
  processed : List (SData T)
  slept : List Int
deriving Repr, DecidableEq

/-- Program counter of the execution thread inside `CDaemon::Execute`. -/
inductive Pc where
  /-- about to run `ProcessThreadPreamble()` -/
  | preamble
  /-- at the `while (m_bIsRunning)` test -/
  | loopTest
  /-- blocked in `m_ConditionVar.wait(lock, pred)` -/
  | atWait
  /-- at `if (int nSleep = m_nSleepMs)` -/
  | checkSleep
  /-- inside `sleep_for(milliseconds(nSleep))` with the captured value -/
  | sleeping (nSleep : Int)
  /-- about to run `ProcessPreQueue()` -/
  | preQueue
  /-- about to `Dequeue()` and possibly `Process` one item -/
  | doQueue
  /-- about to run `ProcessAfterQueue()` -/
  | afterQueue
  /-- inside the `ProcessThreadEpilogue()` drain loop -/
  | epilogue
  /-- about to execute `m_bFinished = true` -/
  | setFinished
  /-- thread function returned -/
  | exited
deriving Repr, DecidableEq

/-- Predicate of the condition wait in `Execute`:
`!m_Queue.empty() || !m_bIsRunning.load() || m_nSleepMs.load() > 0`. -/
def waitPred {T : Type} (s : DState T) : Bool :=
  !s.queue.isEmpty || !s.bIsRunning || decide (s.nSleepMs > 0)

/-- `CDaemon::Dequeue`: under the mutex, if the queue is empty return an
empty optional, else `top()` and `pop()`. -/
def Dequeue {T : Type} (s : DState T) : Option (SData T) × DState T :=
  match popMin s.queue with
  | none => (none, s)
  | some (x, rest) => (some x, { s with queue := rest })

/-- One step of the execution thread (`CDaemon::Execute`, including the
`ProcessThreadEpilogue` drain and the final `m_bFinished = true`). -/
def workerStep {T : Type} : Pc → DState T → Pc × DState T
  | .preamble, s => (.loopTest, s)
  | .loopTest, s => if s.bIsRunning then (.atWait, s) else (.epilogue, s)
  | .atWait, s => if waitPred s then (.checkSleep, s) else (.atWait, s)
  | .checkSleep, s =>
    if s.nSleepMs ≠ 0 then (.sleeping s.nSleepMs, { s with bIsSleeping := true })
    else (.preQueue, s)
  | .sleeping n, s =>
    (.loopTest, { s with bIsSleeping := false, nSleepMs := 0, slept := s.slept ++ [n] })
  | .preQueue, s => (.doQueue, s)
  | .doQueue, s =>
    match popMin s.queue with
    | none => (.afterQueue, s)
    | some (x, rest) => (.afterQueue, { s with queue := rest, processed := s.processed ++ [x] })
  | .afterQueue, s => (.loopTest, s)
  | .epilogue, s =>
    match popMin s.queue with
    | none => (.setFinished, s)
    | some (x, rest) => (.epilogue, { s with queue := rest, processed := s.processed ++ [x] })
  | .setFinished, s => (.exited, { s with bFinished := true })
  | .exited, s => (.exited, s)

/-- Run the execution thread for at most `n` small steps. -/
def runWorker {T : Type} : Nat → Pc → DState T → Pc × DState T
  | 0, pc, s => (pc, s)
  | n + 1, pc, s => runWorker n (workerStep pc s).1 (workerStep pc s).2

/-- Whole-object state: the shared state, the execution thread's position,
whether `m_Thread` is joinable, and how many threads were spawned. -/
structure Sys (T : Type) where
  st : DState T
  pc : Pc
  joinable : Bool
  spawns : Nat
deriving Repr, DecidableEq

/-- `CDaemon::Start`: `if (not m_bIsRunning) { m_Thread = std::thread(...);
m_bIsRunning = true; }`.  Spawning the thread and raising the flag are
modelled as one atomic effect of the call. -/
def Start {T : Type} (y : Sys T) : Sys T :=
  if !y.st.bIsRunning then
    { st := { y.st with bIsRunning := true }, pc := Pc.preamble,
      joinable := true, spawns := y.spawns + 1 }
  else y

/-- `CDaemon::Stop`: clear `m_bIsRunning` under the mutex, notify, then
join if joinable.  The join is modelled by running the execution thread to
completion; `queue.length + 8` small steps always suffice once the running
flag is down (proved below), so the fuelled run is exact. -/
def Stop {T : Type} (y : Sys T) : Sys T :=
  let st1 := { y.st with bIsRunning := false }
  if y.joinable then
    let r := runWorker (st1.queue.length + 8) y.pc st1
    { st := r.2, pc := r.1, joinable := false, spawns := y.spawns }
  else { y with st := st1 }

/-- `CDaemon::IsRunning`. -/
def IsRunning {T : Type} (s : DState T) : Bool := s.bIsRunning

/-- `CDaemon::Finished`. -/
def Finished {T : Type} (s : DState T) : Bool := s.bFinished

/-- `CDaemon::Sleep`: `if (not m_bIsSleeping) { m_nSleepMs = nMs;
m_ConditionVar.notify_one(); }`. -/
def Sleep {T : Type} (nMs : Int) (s : DState T) : DState T :=
  if !s.bIsSleeping then { s with nSleepMs := nMs } else s

/-- `CDaemon::SafeAddMessage`: push under the mutex, then notify. -/
def SafeAddMessage {T : Type} (s : DState T) (d : SData T) : DState T :=
  { s with queue := s.queue ++ [d] }

theorem runWorker_succ {T : Type} (n : Nat) (pc : Pc) (s : DState T) :
    runWorker (n + 1) pc s = runWorker n (workerStep pc s).1 (workerStep pc s).2 := rfl

theorem runWorker_exited {T : Type} (n : Nat) (s : DState T) :
    runWorker n Pc.exited s = (Pc.exited, s) := by
  induction n with
  | zero => rfl
  | succ n ih => rw [runWorker_succ]; exact ih

theorem runWorker_add {T : Type} (a b : Nat) (pc : Pc) (s : DState T) :
    runWorker (a + b) pc s = runWorker b (runWorker a pc s).1 (runWorker a pc s).2 := by
  induction a generalizing pc s with
  | zero => simp [runWorker]
  | succ a ih =>
    rw [Nat.succ_add, runWorker_succ, runWorker_succ, ih]

theorem runWorker_mono_exited {T : Type} {a b : Nat} {pc : Pc} {s t : DState T}
    (h : runWorker a pc s = (Pc.exited, t)) (hab : a ≤ b) :
    runWorker b pc s = (Pc.exited, t) := by
  obtain ⟨c, rfl⟩ := Nat.exists_eq_add_of_le hab
  rw [runWorker_add, h]
  simp [runWorker_exited]

theorem runWorker_epilogue {T : Type} (k : Nat) (s : DState T) (hq : s.queue.length = k) :
    runWorker (k + 2) Pc.epilogue s =
      (Pc.exited, { s with queue := [], bFinished := true, processed := s.processed ++ drainList s.queue }) := by
  induction k generalizing s with
  | zero =>
    obtain ⟨q, br, bf, ns, bs, pr, sl⟩ := s
    simp only [List.length_eq_zero] at hq
    subst hq
    have hpop : popMin ([] : List (SData T)) = none := rfl
    simp [runWorker, workerStep, hpop, drainList_eq_none hpop]
  | succ k ih =>
    obtain ⟨q, br, bf, ns, bs, pr, sl⟩ := s
    simp only at hq
    obtain ⟨x, rest, hpop⟩ : ∃ x rest, popMin q = some (x, rest) := by
      cases hp : popMin q with
      | none =>
        exfalso
        rw [(popMin_none_iff _).mp hp] at hq
        simp at hq
      | some p =>
        obtain ⟨x, rest⟩ := p
        exact ⟨x, rest, rfl⟩
    have hlen : rest.length = k := by
      have := popMin_length hpop
      omega
    have e1 : workerStep Pc.epilogue (DState.mk q br bf ns bs pr sl) =
        (Pc.epilogue, DState.mk rest br bf ns bs (pr ++ [x]) sl) := by
      simp [workerStep, hpop]
    rw [show (k + 1 + 2 : Nat) = (k + 2) + 1 from rfl, runWorker_succ, e1]
    simp only
    rw [ih (DState.mk rest br bf ns bs (pr ++ [x]) sl) hlen]
    simp [drainList_eq_some hpop]

theorem runWorker_loopTest {T : Type} (k : Nat) (s : DState T)
    (hrun : s.bIsRunning = false) (hq : s.queue.length = k) :
    runWorker (k + 3) Pc.loopTest s =
      (Pc.exited, { s with queue := [], bFinished := true, processed := s.processed ++ drainList s.queue }) := by
  have e1 : workerStep Pc.loopTest s = (Pc.epilogue, s) := by
    simp [workerStep, hrun]
  rw [show (k + 3 : Nat) = (k + 2) + 1 from rfl, runWorker_succ, e1]
  exact runWorker_epilogue k s hq

/-- After `Stop` clears the running flag, the worker run drains the queue:
final state has an empty queue, the finished flag set, everything that was
enqueued or already processed now processed, and the other control fields
untouched. -/
def Drained {T : Type} (s t : DState T) : Prop :=
  t.queue = [] ∧ t.bFinished = true ∧
  t.processed.Perm (s.processed ++ s.queue) ∧ t.bIsRunning = s.bIsRunning

theorem drained_of_closed {T : Type} (s : DState T) :
    Drained s { s with queue := [], bFinished := true, processed := s.processed ++ drainList s.queue } := by
  refine ⟨rfl, rfl, ?_, rfl⟩
  exact List.Perm.append_left s.processed (drainList_perm s.queue)

theorem runWorker_doQueue {T : Type} (k : Nat) (s : DState T)
    (hrun : s.bIsRunning = false) (hq : s.queue.length = k) :
    ∃ t : DState T, runWorker (k + 5) Pc.doQueue s = (Pc.exited, t) ∧ Drained s t := by
  cases hpop : popMin s.queue with
  | none =>
    have hnil : s.queue = [] := (popMin_none_iff _).mp hpop
    have hk : k = 0 := by rw [hnil] at hq; simpa using hq.symm
    subst hk
    have e1 : workerStep Pc.doQueue s = (Pc.afterQueue, s) := by
      simp [workerStep, hpop]
    have e2 : workerStep Pc.afterQueue s = (Pc.loopTest, s) := rfl
    rw [show (0 + 5 : Nat) = (0 + 3) + 1 + 1 from rfl, runWorker_succ, e1]
    simp only
    rw [runWorker_succ, e2]
    simp only
    rw [runWorker_loopTest 0 s hrun (by simp [hnil])]
    exact ⟨_, rfl, drained_of_closed s⟩
  | some p =>
    obtain ⟨x, rest⟩ := p
    have hlen : rest.length + 1 = k := by
      have := popMin_length hpop
      omega
    have e1 : workerStep Pc.doQueue s =
        (Pc.afterQueue, { s with queue := rest, processed := s.processed ++ [x] }) := by
      simp [workerStep, hpop]
    have e2 : workerStep Pc.afterQueue
        ({ s with queue := rest, processed := s.processed ++ [x] } : DState T) =
        (Pc.loopTest, { s with queue := rest, processed := s.processed ++ [x] }) := rfl
    rw [show (k + 5 : Nat) = (k + 3) + 1 + 1 from rfl, runWorker_succ, e1]
    simp only
    rw [runWorker_succ, e2]
    simp only
    have hexact := runWorker_loopTest (rest.length)
      ({ s with queue := rest, processed := s.processed ++ [x] } : DState T)
      (by simp [hrun]) (by simp)
    have hfin := runWorker_mono_exited hexact (show rest.length + 3 <= k + 3 by omega)
    rw [hfin]
    refine ⟨_, rfl, ?_, ?_, ?_, ?_⟩
    · rfl
    · rfl
    · simp only
      have h1 : (x :: drainList rest).Perm (x :: rest) :=
        (drainList_perm rest).cons x
      have h2 : (x :: rest).Perm s.queue := (popMin_perm hpop).symm
      have : ((s.processed ++ [x]) ++ drainList rest).Perm
          (s.processed ++ s.queue) := by
        rw [List.append_assoc, List.singleton_append]
        exact List.Perm.append_left s.processed (h1.trans h2)
      exact this
    · rfl

theorem runWorker_preQueue {T : Type} (k : Nat) (s : DState T)
    (hrun : s.bIsRunning = false) (hq : s.queue.length = k) :
    ∃ t : DState T, runWorker (k + 6) Pc.preQueue s = (Pc.exited, t) ∧ Drained s t := by
  have e1 : workerStep Pc.preQueue s = (Pc.doQueue, s) := rfl
  rw [show (k + 6 : Nat) = (k + 5) + 1 from rfl, runWorker_succ, e1]
  exact runWorker_doQueue k s hrun hq

theorem runWorker_checkSleep {T : Type} (k : Nat) (s : DState T)
    (hrun : s.bIsRunning = false) (hq : s.queue.length = k) :
    ∃ t : DState T, runWorker (k + 7) Pc.checkSleep s = (Pc.exited, t) ∧ Drained s t := by
  by_cases hns : s.nSleepMs ≠ 0
  · have e1 : workerStep Pc.checkSleep s =
        (Pc.sleeping s.nSleepMs, { s with bIsSleeping := true }) := by
      simp [workerStep, hns]
    have e2 : workerStep (Pc.sleeping s.nSleepMs)
        ({ s with bIsSleeping := true } : DState T) =
        (Pc.loopTest, { s with bIsSleeping := false, nSleepMs := 0, slept := s.slept ++ [s.nSleepMs] }) := rfl
    rw [show (k + 7 : Nat) = (k + 5) + 1 + 1 from rfl, runWorker_succ, e1]
    simp only
    rw [runWorker_succ, e2]
    simp only
    have hexact := runWorker_loopTest k
      ({ s with bIsSleeping := false, nSleepMs := 0, slept := s.slept ++ [s.nSleepMs] } : DState T)
      (by simp [hrun]) (by simpa using hq)
    have hfin := runWorker_mono_exited hexact (show k + 3 <= k + 5 by omega)
    rw [hfin]
    refine ⟨_, rfl, rfl, rfl, ?_, rfl⟩
    simp only
    exact List.Perm.append_left s.processed (drainList_perm s.queue)
  · have e1 : workerStep Pc.checkSleep s = (Pc.preQueue, s) := by
      simp [workerStep, hns]
    rw [show (k + 7 : Nat) = (k + 6) + 1 from rfl, runWorker_succ, e1]
    exact runWorker_preQueue k s hrun hq

/-- From any worker position that precedes its final drain, once the
running flag is down the worker reaches `exited` within
`queue.length + 8` steps, having drained and processed everything. -/
theorem runWorker_stop_drains {T : Type} (pc : Pc) (s : DState T)
    (hrun : s.bIsRunning = false)
    (hpc1 : pc ≠ Pc.setFinished) (hpc2 : pc ≠ Pc.exited) :
    ∃ t : DState T,
      runWorker (s.queue.length + 8) pc s = (Pc.exited, t) ∧ Drained s t := by
  cases pc with
  | preamble =>
    have e1 : workerStep Pc.preamble s = (Pc.loopTest, s) := rfl
    rw [show (s.queue.length + 8 : Nat) = (s.queue.length + 7) + 1 from rfl,
      runWorker_succ, e1]
    exact ⟨_, runWorker_mono_exited (runWorker_loopTest _ s hrun rfl) (by omega),
      drained_of_closed s⟩
  | loopTest =>
    exact ⟨_, runWorker_mono_exited (runWorker_loopTest _ s hrun rfl) (by omega),
      drained_of_closed s⟩
  | atWait =>
    have hw : waitPred s = true := by simp [waitPred, hrun]
    have e1 : workerStep Pc.atWait s = (Pc.checkSleep, s) := by
      simp [workerStep, hw]
    rw [show (s.queue.length + 8 : Nat) = (s.queue.length + 7) + 1 from rfl,
      runWorker_succ, e1]
    exact runWorker_checkSleep _ s hrun rfl
  | checkSleep =>
    obtain ⟨t, heq, hd⟩ := runWorker_checkSleep _ s hrun rfl
    exact ⟨t, runWorker_mono_exited heq (by omega), hd⟩
  | sleeping n =>
    have e1 : workerStep (Pc.sleeping n) s =
        (Pc.loopTest, { s with bIsSleeping := false, nSleepMs := 0, slept := s.slept ++ [n] }) := rfl
    rw [show (s.queue.length + 8 : Nat) = (s.queue.length + 7) + 1 from rfl,
      runWorker_succ, e1]
    simp only
    have hexact := runWorker_loopTest s.queue.length
      ({ s with bIsSleeping := false, nSleepMs := 0, slept := s.slept ++ [n] } : DState T)
      (by simp [hrun]) (by simp)
    refine ⟨_, runWorker_mono_exited hexact (by omega), rfl, rfl, ?_, rfl⟩
    simp only
    exact List.Perm.append_left s.processed (drainList_perm s.queue)
  | preQueue =>
    obtain ⟨t, heq, hd⟩ := runWorker_preQueue _ s hrun rfl
    exact ⟨t, runWorker_mono_exited heq (by omega), hd⟩
  | doQueue =>
    obtain ⟨t, heq, hd⟩ := runWorker_doQueue _ s hrun rfl
    exact ⟨t, runWorker_mono_exited heq (by omega), hd⟩
  | afterQueue =>
    have e1 : workerStep Pc.afterQueue s = (Pc.loopTest, s) := rfl
    rw [show (s.queue.length + 8 : Nat) = (s.queue.length + 7) + 1 from rfl,
      runWorker_succ, e1]
    exact ⟨_, runWorker_mono_exited (runWorker_loopTest _ s hrun rfl) (by omega),
      drained_of_closed s⟩
  | epilogue =>
    exact ⟨_, runWorker_mono_exited (runWorker_epilogue _ s rfl) (by omega),
      drained_of_closed s⟩
  | setFinished => exact absurd rfl hpc1
  | exited => exact absurd rfl hpc2

/-- Repeatedly `Dequeue` until the queue is empty, collecting the returned
items in order (the observable behaviour behind the priority-ordering
property). -/
def dequeueAll {T : Type} (s : DState T) : List (SData T) × DState T :=
  match h : Dequeue s with
  | (none, _) => ([], s)
  | (some x, s') =>
    let r := dequeueAll s'
    (x :: r.1, r.2)
termination_by s.queue.length
decreasing_by
  simp only [Dequeue] at h
  rcases hp : popMin s.queue with _ | ⟨a, rest⟩
  · rw [hp] at h; simp at h
  · rw [hp] at h
    simp only [Option.some.injEq, Prod.mk.injEq] at h
    have := popMin_length hp
    rw [← h.2]
    simp
    omega

theorem Dequeue_none {T : Type} {s : DState T} (h : s.queue = []) :
    Dequeue s = (none, s) := by
  have hp : popMin s.queue = none := by rw [h]; rfl
  simp [Dequeue, hp]

theorem Dequeue_some {T : Type} {s s' : DState T} {x : SData T}
    (h : Dequeue s = (some x, s')) :
    popMin s.queue = some (x, s'.queue) ∧ s' = { s with queue := s'.queue } := by
  simp only [Dequeue] at h
  rcases hp : popMin s.queue with _ | ⟨a, rest⟩
  · rw [hp] at h; simp at h
  · rw [hp] at h
    simp only [Option.some.injEq, Prod.mk.injEq] at h
    obtain ⟨rfl, rfl⟩ := h
    exact ⟨rfl, rfl⟩

theorem dequeueAll_fst {T : Type} (s : DState T) :
    (dequeueAll s).1 = drainList s.queue := by
  cases h : Dequeue s with
  | mk o s' =>
    cases o with
    | none =>
      have hp : popMin s.queue = none := by
        simp only [Dequeue] at h
        rcases hp : popMin s.queue with _ | ⟨a, rest⟩
        · rfl
        · rw [hp] at h; simp at h
      rw [dequeueAll, h, drainList_eq_none hp]
    | some x =>
      obtain ⟨hp, hs'⟩ := Dequeue_some h
      have hlen : s'.queue.length + 1 = s.queue.length := popMin_length hp
      have ih := dequeueAll_fst s'
      rw [dequeueAll, h]
      simp only
      rw [ih, drainList_eq_some hp]
termination_by s.queue.length
decreasing_by
  omega

end CDaemonCV

/-!
Polling variant of `CDaemon<T>` (`src/include/ThreadWrapper/Daemon.cc`):
priority-queue mailbox, suspend/resume flag, fixed-rate polling loop, no
condition variable, non-draining `Stop`.
-/

namespace CDaemonPoll

/-- Shared state of the polling `CDaemon<T>`: queue contents, the atomics
`m_bIsRunning` and `m_bIsSuspended`, the rate `m_nRateMs`, and the
observation logs for `Process` calls and `Sleep` calls made by the loop. -/
structure WState (T : Type) where
  queue : List (SData T)
  bIsRunning : Bool
  bIsSuspended : Bool
  nRateMs : Int
  processed : List (SData T)
  slept : List Int
deriving Repr, DecidableEq

/-- `CDaemon::Dequeue` of the polling variant (same locked top-and-pop). -/
def Dequeue {T : Type} (s : WState T) : Option (SData T) × WState T :=
  match popMin s.queue with
  | none => (none, s)
  | some (x, rest) => (some x, { s with queue := rest })

/-- One pass of the `while (m_bIsRunning)` body of `Execute`: if the loop
has exited (flag down) nothing happens; if suspended, `Sleep(50)` and
restart; otherwise `ProcessPreamble()` (empty default), dequeue, process if
an item was available, and `Sleep(m_nRateMs)`. -/
def iterOnce {T : Type} (s : WState T) : WState T :=
  if s.bIsRunning then
    if s.bIsSuspended then { s with slept := s.slept ++ [50] }
    else
      match popMin s.queue with
      | none => s
      | some (x, rest) =>
        { s with queue := rest, processed := s.processed ++ [x], slept := s.slept ++ [s.nRateMs] }
  else s

/-- `n` passes of the loop body. -/
def iterN {T : Type} : Nat → WState T → WState T
  | 0, s => s
  | n + 1, s => iterN n (iterOnce s)

/-- `CDaemon::Suspend`: `m_bIsSuspended = true`. -/
def Suspend {T : Type} (s : WState T) : WState T := { s with bIsSuspended := true }

/-- `CDaemon::Resume`: `m_bIsSuspended = false`. -/
def Resume {T : Type} (s : WState T) : WState T := { s with bIsSuspended := false }

/-- `CDaemon::IsSuspended`. -/
def IsSuspended {T : Type} (s : WState T) : Bool := s.bIsSuspended

/-- `CDaemon::Stop` of the polling variant: only clears the flag. -/
def Stop {T : Type} (s : WState T) : WState T := { s with bIsRunning := false }

/-- `CDaemon::SafeAddMessage` of the polling variant: push under the mutex. -/
def SafeAddMessage {T : Type} (s : WState T) (d : SData T) : WState T :=
  { s with queue := s.queue ++ [d] }

/-- Whole-object state for the polling variant, tracking thread spawns. -/
structure WSys (T : Type) where
  st : WState T
  joinable : Bool
  spawns : Nat
deriving Repr, DecidableEq

/-- `CDaemon::Start` of the polling variant: spawn the thread and raise the
flag only when not already running. -/
def Start {T : Type} (y : WSys T) : WSys T :=
  if !y.st.bIsRunning then
    { st := { y.st with bIsRunning := true }, joinable := true, spawns := y.spawns + 1 }
  else y

theorem iterOnce_suspended {T : Type} (s : WState T)
    (hrun : s.bIsRunning = true) (hsus : s.bIsSuspended = true) :
    iterOnce s = { s with slept := s.slept ++ [50] } := by
  simp [iterOnce, hrun, hsus]

theorem iterN_suspended {T : Type} (n : Nat) (s : WState T)
    (hrun : s.bIsRunning = true) (hsus : s.bIsSuspended = true) :
    iterN n s = { s with slept := s.slept ++ List.replicate n 50 } := by
  induction n generalizing s with
  | zero =>
    obtain ⟨q, br, bs, nr, pr, sl⟩ := s
    simp [iterN]
  | succ n ih =>
    rw [show iterN (n + 1) s = iterN n (iterOnce s) from rfl]
    rw [iterOnce_suspended s hrun hsus]
    rw [ih ({ s with slept := s.slept ++ [50] }) (by simpa using hrun) (by simpa using hsus)]
    simp [List.replicate_succ]

theorem iterN_drain {T : Type} (k : Nat) (s : WState T)
    (hrun : s.bIsRunning = true) (hsus : s.bIsSuspended = false)
    (hq : s.queue.length = k) :
    iterN k s = { s with queue := [], processed := s.processed ++ drainList s.queue, slept := s.slept ++ List.replicate k s.nRateMs } := by
  induction k generalizing s with
  | zero =>
    obtain ⟨q, br, bs, nr, pr, sl⟩ := s
    simp only [List.length_eq_zero] at hq
    subst hq
    have hpop : popMin ([] : List (SData T)) = none := rfl
    simp [iterN, drainList_eq_none hpop]
  | succ k ih =>
    obtain ⟨x, rest, hpop⟩ : ∃ x rest, popMin s.queue = some (x, rest) := by
      cases hp : popMin s.queue with
      | none =>
        exfalso
        rw [(popMin_none_iff _).mp hp] at hq
        simp at hq
      | some p =>
        obtain ⟨x, rest⟩ := p
        exact ⟨x, rest, rfl⟩
    have hlen : rest.length = k := by
      have := popMin_length hpop
      omega
    have e1 : iterOnce s =
        { s with queue := rest, processed := s.processed ++ [x], slept := s.slept ++ [s.nRateMs] } := by
      simp [iterOnce, hrun, hsus, hpop]
    rw [show iterN (k + 1) s = iterN k (iterOnce s) from rfl, e1]
    rw [ih ({ s with queue := rest, processed := s.processed ++ [x], slept := s.slept ++ [s.nRateMs] })
      (by simpa using hrun) (by simpa using hsus) (by simpa using hlen)]
    simp [drainList_eq_some hpop, List.replicate_succ]

end CDaemonPoll

/-!
Earliest iteration (`src/src/Daemon.cc`): `Daemon<T>` with a plain
`std::queue` mailbox — FIFO, the `nPriority` field is carried but unused
(the source marks it `@todo: priority queue`).
-/

namespace DaemonFifo

/-- `Daemon::dequeue`: under the mutex, take `front()` and `pop()` of the
`std::queue` — strict FIFO. -/
def dequeue {T : Type} : List (SData T) → Option (SData T × List (SData T))
  | [] => none
  | x :: xs => some (x, xs)

/-- `Daemon::safeAddMessage`: `m_Queue.push(data)` — append at the back. -/
def safeAddMessage {T : Type} (q : List (SData T)) (d : SData T) : List (SData T) :=
  q ++ [d]

/-- Enqueue a whole sequence of items in order. -/
def enqueueAll {T : Type} (q : List (SData T)) (xs : List (SData T)) : List (SData T) :=
  xs.foldl safeAddMessage q

/-- Repeatedly `dequeue` until empty, collecting the items in order. -/
def fifoDrain {T : Type} (q : List (SData T)) : List (SData T) :=
  match h : dequeue q with
  | none => []
  | some (x, rest) => x :: fifoDrain rest
termination_by q.length
decreasing_by
  cases q with
  | nil => simp [dequeue] at h
  | cons a xs =>
    simp only [dequeue, Option.some.injEq, Prod.mk.injEq] at h
    obtain ⟨rfl, rfl⟩ := h
    simp

theorem enqueueAll_eq {T : Type} (q : List (SData T)) (xs : List (SData T)) :
    enqueueAll q xs = q ++ xs := by
  induction xs generalizing q with
  | nil => simp [enqueueAll]
  | cons x xs ih =>
    rw [show enqueueAll q (x :: xs) = enqueueAll (safeAddMessage q x) xs from rfl, ih]
    simp [safeAddMessage]

theorem fifoDrain_eq {T : Type} (q : List (SData T)) : fifoDrain q = q := by
  induction q with
  | nil => rw [fifoDrain]; rfl
  | cons x xs ih =>
    rw [fifoDrain]
    simp only [dequeue]
    rw [ih]

end DaemonFifo

/-!
Claim theorems.
-/

/-- C1: `CDaemon::Dequeue` removes and returns an item whose `nPriority` is
the smallest in the mailbox, and returns an empty optional when the mailbox
is empty; consequently, for pairwise-distinct priorities, repeated dequeue
yields the items in ascending priority order regardless of enqueue order. -/
theorem C1_dequeue_priority_order {T : Type} (s : CDaemonCV.DState T) :
    (s.queue = [] → CDaemonCV.Dequeue s = (none, s)) ∧
    (∀ x s', CDaemonCV.Dequeue s = (some x, s') →
      (∀ y ∈ s.queue, x.nPriority ≤ y.nPriority) ∧
      s.queue.Perm (x :: s'.queue)) ∧
    ((s.queue.map (fun d => d.nPriority)).Nodup →
      (CDaemonCV.dequeueAll s).1.Perm s.queue ∧
      List.Pairwise (fun a b => a.nPriority < b.nPriority) (CDaemonCV.dequeueAll s).1 ∧
      ∀ s' : CDaemonCV.DState T, s'.queue.Perm s.queue →
        (CDaemonCV.dequeueAll s').1 = (CDaemonCV.dequeueAll s).1) := by
  refine ⟨fun h => CDaemonCV.Dequeue_none h, ?_, ?_⟩
  · intro x s' h
    obtain ⟨hp, _⟩ := CDaemonCV.Dequeue_some h
    exact ⟨popMin_min hp, popMin_perm hp⟩
  · intro hnd
    rw [CDaemonCV.dequeueAll_fst]
    refine ⟨drainList_perm _, drainList_sorted_lt _ hnd, ?_⟩
    intro s' hperm
    rw [CDaemonCV.dequeueAll_fst]
    exact drainList_unique _ _ hnd hperm

/-- Witness for C1 at a concrete three-item mailbox. -/
theorem C1_dequeue_priority_order_witness :
    (([⟨5, 0, (10 : Int)⟩, ⟨1, 1, 20⟩, ⟨3, 2, 30⟩] : List (SData Int)).map
      (fun d => d.nPriority)).Nodup ∧
    (CDaemonCV.dequeueAll
      (⟨[⟨5, 0, (10 : Int)⟩, ⟨1, 1, 20⟩, ⟨3, 2, 30⟩], true, false, 0, false, [], []⟩ :
        CDaemonCV.DState Int)).1.Perm
      [⟨5, 0, (10 : Int)⟩, ⟨1, 1, 20⟩, ⟨3, 2, 30⟩] ∧
    List.Pairwise (fun a b => a.nPriority < b.nPriority)
      (CDaemonCV.dequeueAll
        (⟨[⟨5, 0, (10 : Int)⟩, ⟨1, 1, 20⟩, ⟨3, 2, 30⟩], true, false, 0, false, [], []⟩ :
          CDaemonCV.DState Int)).1 :=
  ⟨by decide,
   ((C1_dequeue_priority_order
      (⟨[⟨5, 0, (10 : Int)⟩, ⟨1, 1, 20⟩, ⟨3, 2, 30⟩], true, false, 0, false, [], []⟩ :
        CDaemonCV.DState Int)).2.2 (by decide)).1,
   ((C1_dequeue_priority_order
      (⟨[⟨5, 0, (10 : Int)⟩, ⟨1, 1, 20⟩, ⟨3, 2, 30⟩], true, false, 0, false, [], []⟩ :
        CDaemonCV.DState Int)).2.2 (by decide)).2.1⟩

/-- C2: in the graceful-drain variant, `Stop` joins the execution thread:
after `Stop` returns the mailbox is empty, `Finished()` is true, the thread
has exited, and everything that was in the mailbox has been processed.  The
hypotheses say the thread is joinable and has not already passed its final
drain. -/
theorem C2_graceful_drain {T : Type} (y : CDaemonCV.Sys T)
    (hj : y.joinable = true)
    (h1 : y.pc ≠ CDaemonCV.Pc.setFinished) (h2 : y.pc ≠ CDaemonCV.Pc.exited) :
    (CDaemonCV.Stop y).st.queue = [] ∧
    CDaemonCV.Finished (CDaemonCV.Stop y).st = true ∧
    (CDaemonCV.Stop y).pc = CDaemonCV.Pc.exited ∧
    (CDaemonCV.Stop y).st.processed.Perm (y.st.processed ++ y.st.queue) := by
  obtain ⟨t, heq, hq, hf, hperm, hrun⟩ :=
    CDaemonCV.runWorker_stop_drains y.pc ({ y.st with bIsRunning := false }) (by simp) h1 h2
  have hstop : CDaemonCV.Stop y =
      { st := t, pc := CDaemonCV.Pc.exited, joinable := false, spawns := y.spawns } := by
    simp only [CDaemonCV.Stop, hj]
    simp [heq]
  rw [hstop]
  exact ⟨hq, hf, rfl, hperm⟩

/-- Witness for C2 at a concrete two-item mailbox with the worker at the
condition wait. -/
theorem C2_graceful_drain_witness :
    ((⟨⟨[⟨5, 0, (10 : Int)⟩, ⟨1, 1, 20⟩], true, false, 0, false, [], []⟩,
        CDaemonCV.Pc.atWait, true, 1⟩ : CDaemonCV.Sys Int).joinable = true) ∧
    ((CDaemonCV.Stop
      (⟨⟨[⟨5, 0, (10 : Int)⟩, ⟨1, 1, 20⟩], true, false, 0, false, [], []⟩,
        CDaemonCV.Pc.atWait, true, 1⟩ : CDaemonCV.Sys Int)).st.queue = [] ∧
     CDaemonCV.Finished (CDaemonCV.Stop
      (⟨⟨[⟨5, 0, (10 : Int)⟩, ⟨1, 1, 20⟩], true, false, 0, false, [], []⟩,
        CDaemonCV.Pc.atWait, true, 1⟩ : CDaemonCV.Sys Int)).st = true ∧
     (CDaemonCV.Stop
      (⟨⟨[⟨5, 0, (10 : Int)⟩, ⟨1, 1, 20⟩], true, false, 0, false, [], []⟩,
        CDaemonCV.Pc.atWait, true, 1⟩ : CDaemonCV.Sys Int)).pc = CDaemonCV.Pc.exited ∧
     (CDaemonCV.Stop
      (⟨⟨[⟨5, 0, (10 : Int)⟩, ⟨1, 1, 20⟩], true, false, 0, false, [], []⟩,
        CDaemonCV.Pc.atWait, true, 1⟩ : CDaemonCV.Sys Int)).st.processed.Perm
      ([] ++ [⟨5, 0, (10 : Int)⟩, ⟨1, 1, 20⟩])) :=
  ⟨rfl,
   C2_graceful_drain
    (⟨⟨[⟨5, 0, (10 : Int)⟩, ⟨1, 1, 20⟩], true, false, 0, false, [], []⟩,
      CDaemonCV.Pc.atWait, true, 1⟩ : CDaemonCV.Sys Int) rfl (by decide) (by decide)⟩

/-- C3: the condition wait proceeds past the wait exactly when its
predicate holds (queue non-empty, or running flag false, or pending sleep
duration positive); a wakeup with the predicate false re-enters the wait
with nothing changed. -/
theorem C3_wait_predicate {T : Type} (s : CDaemonCV.DState T) :
    ((CDaemonCV.workerStep CDaemonCV.Pc.atWait s).1 ≠ CDaemonCV.Pc.atWait ↔
      (s.queue ≠ [] ∨ s.bIsRunning = false ∨ s.nSleepMs > 0)) ∧
    (CDaemonCV.waitPred s = false →
      CDaemonCV.workerStep CDaemonCV.Pc.atWait s = (CDaemonCV.Pc.atWait, s)) ∧
    (CDaemonCV.waitPred s = true →
      CDaemonCV.workerStep CDaemonCV.Pc.atWait s = (CDaemonCV.Pc.checkSleep, s)) := by
  refine ⟨?_, fun h => by simp [CDaemonCV.workerStep, h],
    fun h => by simp [CDaemonCV.workerStep, h]⟩
  have hiff : (CDaemonCV.workerStep CDaemonCV.Pc.atWait s).1 ≠ CDaemonCV.Pc.atWait ↔
      CDaemonCV.waitPred s = true := by
    by_cases hw : CDaemonCV.waitPred s = true <;> simp [CDaemonCV.workerStep, hw]
  rw [hiff]
  simp only [CDaemonCV.waitPred, Bool.or_eq_true, Bool.not_eq_true',
    decide_eq_true_eq, List.isEmpty_eq_false, List.isEmpty_eq_true]
  tauto

/-- Witness for C3 at a concrete idle state (empty queue, running, no sleep
request): the wakeup re-enters the wait. -/
theorem C3_wait_predicate_witness :
    (CDaemonCV.waitPred
      (⟨[], true, false, 0, false, [], []⟩ : CDaemonCV.DState Int) = false) ∧
    CDaemonCV.workerStep CDaemonCV.Pc.atWait
      (⟨[], true, false, 0, false, [], []⟩ : CDaemonCV.DState Int) =
      (CDaemonCV.Pc.atWait, (⟨[], true, false, 0, false, [], []⟩ : CDaemonCV.DState Int)) :=
  ⟨by decide,
   (C3_wait_predicate (⟨[], true, false, 0, false, [], []⟩ : CDaemonCV.DState Int)).2.1
     (by decide)⟩

/-- C4: a sleep request is accepted only when the worker is not already
sleeping (otherwise nothing changes); an accepted nonzero request makes the
worker pause exactly once for the requested duration, clear the request
(duration reset to 0, sleeping flag false), and resume the loop, skipping
queue processing for that cycle. -/
theorem C4_sleep_request_once {T : Type} (s : CDaemonCV.DState T) (n : Int) :
    (s.bIsSleeping = true → CDaemonCV.Sleep n s = s) ∧
    (s.bIsSleeping = false → CDaemonCV.Sleep n s = { s with nSleepMs := n }) ∧
    (s.bIsSleeping = false → n ≠ 0 →
      CDaemonCV.runWorker 2 CDaemonCV.Pc.checkSleep (CDaemonCV.Sleep n s) =
        (CDaemonCV.Pc.loopTest,
          { s with nSleepMs := 0, bIsSleeping := false, slept := s.slept ++ [n] }) ∧
      (CDaemonCV.workerStep CDaemonCV.Pc.checkSleep (CDaemonCV.Sleep n s)).2.bIsSleeping = true ∧
      (CDaemonCV.runWorker 2 CDaemonCV.Pc.checkSleep (CDaemonCV.Sleep n s)).2.queue = s.queue ∧
      (CDaemonCV.runWorker 2 CDaemonCV.Pc.checkSleep (CDaemonCV.Sleep n s)).2.processed
        = s.processed) := by
  refine ⟨fun h => by simp [CDaemonCV.Sleep, h], fun h => by simp [CDaemonCV.Sleep, h], ?_⟩
  intro hsl hn
  have hS : CDaemonCV.Sleep n s = { s with nSleepMs := n } := by simp [CDaemonCV.Sleep, hsl]
  rw [hS]
  refine ⟨?_, ?_, ?_, ?_⟩ <;>
    simp [CDaemonCV.runWorker, CDaemonCV.workerStep, hn]

/-- Witness for C4: a request of 7 ms issued to a non-sleeping worker is
accepted and causes exactly one recorded pause of 7 ms. -/
theorem C4_sleep_request_once_witness :
    ((⟨[], true, false, 0, false, [], []⟩ : CDaemonCV.DState Int).bIsSleeping = false ∧
      (7 : Int) ≠ 0) ∧
    CDaemonCV.runWorker 2 CDaemonCV.Pc.checkSleep
      (CDaemonCV.Sleep 7 (⟨[], true, false, 0, false, [], []⟩ : CDaemonCV.DState Int)) =
      (CDaemonCV.Pc.loopTest, (⟨[], true, false, 0, false, [], [7]⟩ : CDaemonCV.DState Int)) :=
  ⟨⟨rfl, by decide⟩,
   ((C4_sleep_request_once (⟨[], true, false, 0, false, [], []⟩ : CDaemonCV.DState Int) 7).2.2
     rfl (by decide)).1⟩

/-- C5: while the suspended flag is set, every loop pass of the polling
variant leaves the mailbox and the processing log untouched (only a fixed
50 ms delay is recorded), and after `Resume` the previously enqueued items
are processed in ascending priority order. -/
theorem C5_suspend_resume {T : Type} (s : CDaemonPoll.WState T)
    (hrun : s.bIsRunning = true) :
    (s.bIsSuspended = true →
      (∀ n : Nat, CDaemonPoll.iterN n s = { s with slept := s.slept ++ List.replicate n 50 } ∧
        (CDaemonPoll.iterN n s).queue = s.queue ∧
        (CDaemonPoll.iterN n s).processed = s.processed) ∧
      CDaemonPoll.iterOnce s = { s with slept := s.slept ++ [50] }) ∧
    ((s.queue.map (fun d => d.nPriority)).Nodup →
      (CDaemonPoll.iterN s.queue.length (CDaemonPoll.Resume s)).queue = [] ∧
      (CDaemonPoll.iterN s.queue.length (CDaemonPoll.Resume s)).processed =
        s.processed ++ drainList s.queue ∧
      (drainList s.queue).Perm s.queue ∧
      List.Pairwise (fun a b => a.nPriority < b.nPriority) (drainList s.queue)) := by
  constructor
  · intro hsus
    refine ⟨?_, CDaemonPoll.iterOnce_suspended s hrun hsus⟩
    intro n
    have h := CDaemonPoll.iterN_suspended n s hrun hsus
    refine ⟨h, ?_, ?_⟩ <;> rw [h]
  · intro hnd
    have h := CDaemonPoll.iterN_drain s.queue.length (CDaemonPoll.Resume s)
      (by simpa [CDaemonPoll.Resume] using hrun) rfl rfl
    refine ⟨?_, ?_, drainList_perm _, drainList_sorted_lt _ hnd⟩ <;> rw [h] <;>
      simp [CDaemonPoll.Resume]

/-- Witness for C5: a suspended pass leaves a one-item mailbox untouched,
and after `Resume` the item gets processed. -/
theorem C5_suspend_resume_witness :
    ((⟨[⟨2, 0, (1 : Int)⟩], true, true, 10, [], []⟩ : CDaemonPoll.WState Int).bIsRunning = true ∧
      (⟨[⟨2, 0, (1 : Int)⟩], true, true, 10, [], []⟩ :
        CDaemonPoll.WState Int).bIsSuspended = true) ∧
    (CDaemonPoll.iterN 3
      (⟨[⟨2, 0, (1 : Int)⟩], true, true, 10, [], []⟩ : CDaemonPoll.WState Int)).processed = [] ∧
    (CDaemonPoll.iterN 1 (CDaemonPoll.Resume
      (⟨[⟨2, 0, (1 : Int)⟩], true, true, 10, [], []⟩ : CDaemonPoll.WState Int))).queue = [] :=
  ⟨⟨rfl, rfl⟩,
   (((C5_suspend_resume
      (⟨[⟨2, 0, (1 : Int)⟩], true, true, 10, [], []⟩ : CDaemonPoll.WState Int) rfl).1
      rfl).1 3).2.2,
   ((C5_suspend_resume
      (⟨[⟨2, 0, (1 : Int)⟩], true, true, 10, [], []⟩ : CDaemonPoll.WState Int) rfl).2
      (by decide)).1⟩

/-- C6: `SafeAddMessage` never rejects and never signals an error in any
worker state — for every state (running or not, finished or not) it appends
exactly the given item to the mailbox and leaves every other field of the
state unchanged. -/
theorem C6_enqueue_total {T : Type} (s : CDaemonCV.DState T) (d : SData T) :
    (CDaemonCV.SafeAddMessage s d).queue = s.queue ++ [d] ∧
    (CDaemonCV.SafeAddMessage s d).queue.length = s.queue.length + 1 ∧
    (CDaemonCV.SafeAddMessage s d).bIsRunning = s.bIsRunning ∧
    (CDaemonCV.SafeAddMessage s d).bFinished = s.bFinished ∧
    (CDaemonCV.SafeAddMessage s d).nSleepMs = s.nSleepMs ∧
    (CDaemonCV.SafeAddMessage s d).bIsSleeping = s.bIsSleeping ∧
    (CDaemonCV.SafeAddMessage s d).processed = s.processed ∧
    (CDaemonCV.SafeAddMessage s d).slept = s.slept := by
  simp [CDaemonCV.SafeAddMessage]

/-- C7: `Start` is idempotent in both variants: while the running flag is
up it is a no-op, and two sequential calls spawn exactly one execution
thread. -/
theorem C7_start_idempotent {T : Type} (y : CDaemonCV.Sys T) (w : CDaemonPoll.WSys T) :
    (y.st.bIsRunning = true → CDaemonCV.Start y = y) ∧
    CDaemonCV.Start (CDaemonCV.Start y) = CDaemonCV.Start y ∧
    (y.st.bIsRunning = false →
      (CDaemonCV.Start y).spawns = y.spawns + 1 ∧
      (CDaemonCV.Start (CDaemonCV.Start y)).spawns = y.spawns + 1) ∧
    (w.st.bIsRunning = true → CDaemonPoll.Start w = w) ∧
    CDaemonPoll.Start (CDaemonPoll.Start w) = CDaemonPoll.Start w ∧
    (w.st.bIsRunning = false →
      (CDaemonPoll.Start w).spawns = w.spawns + 1 ∧
      (CDaemonPoll.Start (CDaemonPoll.Start w)).spawns = w.spawns + 1) := by
  by_cases hy : y.st.bIsRunning = true <;> by_cases hw : w.st.bIsRunning = true <;>
    simp [CDaemonCV.Start, CDaemonPoll.Start, hy, hw]

/-- Witness for C7: starting a freshly created worker twice spawns exactly
one thread. -/
theorem C7_start_idempotent_witness :
    ((⟨⟨[], false, false, 0, false, [], []⟩, CDaemonCV.Pc.exited, false, 0⟩ :
      CDaemonCV.Sys Int).st.bIsRunning = false) ∧
    (CDaemonCV.Start (CDaemonCV.Start
      (⟨⟨[], false, false, 0, false, [], []⟩, CDaemonCV.Pc.exited, false, 0⟩ :
        CDaemonCV.Sys Int))).spawns = 1 :=
  ⟨rfl,
   ((C7_start_idempotent
      (⟨⟨[], false, false, 0, false, [], []⟩, CDaemonCV.Pc.exited, false, 0⟩ :
        CDaemonCV.Sys Int)
      (⟨⟨[], false, false, 10, [], []⟩, false, 0⟩ : CDaemonPoll.WSys Int)).2.2.1 rfl).2⟩

/-- C8: in the earliest design iteration the mailbox is a plain FIFO
queue — for every sequence of enqueues, repeated dequeue returns the items
in insertion order, and remapping every `nPriority` leaves the dequeue
order untouched. -/
theorem C8_fifo_insertion_order {T : Type} (xs : List (SData T)) (f : Int → Int) :
    DaemonFifo.fifoDrain (DaemonFifo.enqueueAll [] xs) = xs ∧
    DaemonFifo.dequeue ([] : List (SData T)) = none ∧
    (∀ (x : SData T) (rest : List (SData T)), DaemonFifo.dequeue (x :: rest) = some (x, rest)) ∧
    DaemonFifo.fifoDrain (DaemonFifo.enqueueAll []
      (xs.map (fun d => { d with nPriority := f d.nPriority }))) =
      (DaemonFifo.fifoDrain (DaemonFifo.enqueueAll [] xs)).map
        (fun d => { d with nPriority := f d.nPriority }) := by
  refine ⟨?_, rfl, fun x rest => rfl, ?_⟩
  · rw [DaemonFifo.enqueueAll_eq, DaemonFifo.fifoDrain_eq]
    rfl
  · rw [DaemonFifo.enqueueAll_eq, DaemonFifo.fifoDrain_eq,
      DaemonFifo.enqueueAll_eq, DaemonFifo.fifoDrain_eq]
    rfl

/-- C9: with the running flag down but the finished flag not yet set, the
epilogue drain still invokes `Process` on each remaining item (so
`IsRunning() = false` does not mean processing has ceased), and the
finished flag is set only after the drain finds the queue empty. -/
theorem C9_drain_after_stop {T : Type} (s : CDaemonCV.DState T)
    (hrun : s.bIsRunning = false) (hfin : s.bFinished = false) :
    (s.queue ≠ [] →
      ∃ x rest, popMin s.queue = some (x, rest) ∧
        CDaemonCV.workerStep CDaemonCV.Pc.epilogue s =
          (CDaemonCV.Pc.epilogue, { s with queue := rest, processed := s.processed ++ [x] }) ∧
        CDaemonCV.IsRunning s = false ∧ CDaemonCV.Finished s = false ∧
        CDaemonCV.IsRunning ({ s with queue := rest, processed := s.processed ++ [x] }) = false ∧
        CDaemonCV.Finished ({ s with queue := rest, processed := s.processed ++ [x] }) = false) ∧
    (CDaemonCV.workerStep CDaemonCV.Pc.epilogue s).2.bFinished = false ∧
    (s.queue = [] →
      CDaemonCV.workerStep CDaemonCV.Pc.epilogue s = (CDaemonCV.Pc.setFinished, s) ∧
      CDaemonCV.workerStep CDaemonCV.Pc.setFinished s =
        (CDaemonCV.Pc.exited, { s with bFinished := true })) := by
  refine ⟨?_, ?_, ?_⟩
  · intro hne
    obtain ⟨x, rest, hpop⟩ : ∃ x rest, popMin s.queue = some (x, rest) := by
      cases hp : popMin s.queue with
      | none => exact absurd ((popMin_none_iff _).mp hp) hne
      | some p =>
        obtain ⟨x, rest⟩ := p
        exact ⟨x, rest, rfl⟩
    refine ⟨x, rest, hpop, ?_, hrun, hfin, ?_, ?_⟩
    · simp [CDaemonCV.workerStep, hpop]
    · simpa [CDaemonCV.IsRunning] using hrun
    · simpa [CDaemonCV.Finished] using hfin
  · cases hp : popMin s.queue with
    | none => simpa [CDaemonCV.workerStep, hp] using hfin
    | some p =>
      obtain ⟨x, rest⟩ := p
      simpa [CDaemonCV.workerStep, hp] using hfin
  · intro hnil
    have hp : popMin s.queue = none := by rw [hnil]; rfl
    exact ⟨by simp [CDaemonCV.workerStep, hp], rfl⟩

/-- Witness for C9: with a one-item queue, the running flag down and the
finished flag down, the epilogue step still processes an item and leaves
the finished flag down. -/
theorem C9_drain_after_stop_witness :
    ((⟨[⟨1, 0, (5 : Int)⟩], false, false, 0, false, [], []⟩ :
      CDaemonCV.DState Int).bIsRunning = false ∧
     (⟨[⟨1, 0, (5 : Int)⟩], false, false, 0, false, [], []⟩ :
      CDaemonCV.DState Int).bFinished = false) ∧
    (CDaemonCV.workerStep CDaemonCV.Pc.epilogue
      (⟨[⟨1, 0, (5 : Int)⟩], false, false, 0, false, [], []⟩ :
        CDaemonCV.DState Int)).2.bFinished = false :=
  ⟨⟨rfl, rfl⟩,
   (C9_drain_after_stop
     (⟨[⟨1, 0, (5 : Int)⟩], false, false, 0, false, [], []⟩ :
       CDaemonCV.DState Int) rfl rfl).2.1⟩

/-- C10: `Sleep(0)` issued to an idle non-sleeping worker stores 0 as the
pending duration, which fails the wake predicate, so the worker is never
woken for it: every number of steps from the wait leaves the worker still
waiting in the unchanged state, and no pause is ever recorded. -/
theorem C10_sleep_zero_lost {T : Type} (s : CDaemonCV.DState T)
    (hsl : s.bIsSleeping = false) (hq : s.queue = []) (hrun : s.bIsRunning = true) :
    (CDaemonCV.Sleep 0 s).nSleepMs = 0 ∧
    CDaemonCV.waitPred (CDaemonCV.Sleep 0 s) = false ∧
    CDaemonCV.workerStep CDaemonCV.Pc.atWait (CDaemonCV.Sleep 0 s) =
      (CDaemonCV.Pc.atWait, CDaemonCV.Sleep 0 s) ∧
    (∀ n : Nat, CDaemonCV.runWorker n CDaemonCV.Pc.atWait (CDaemonCV.Sleep 0 s) =
      (CDaemonCV.Pc.atWait, CDaemonCV.Sleep 0 s)) ∧
    (∀ n : Nat, (CDaemonCV.runWorker n CDaemonCV.Pc.atWait
      (CDaemonCV.Sleep 0 s)).2.slept = s.slept) := by
  have hS : CDaemonCV.Sleep 0 s = { s with nSleepMs := 0 } := by simp [CDaemonCV.Sleep, hsl]
  have hwp : CDaemonCV.waitPred (CDaemonCV.Sleep 0 s) = false := by
    rw [hS]
    simp [CDaemonCV.waitPred, hq, hrun]
  have hstep : CDaemonCV.workerStep CDaemonCV.Pc.atWait (CDaemonCV.Sleep 0 s) =
      (CDaemonCV.Pc.atWait, CDaemonCV.Sleep 0 s) := by
    simp [CDaemonCV.workerStep, hwp]
  have hrunN : ∀ n : Nat, CDaemonCV.runWorker n CDaemonCV.Pc.atWait (CDaemonCV.Sleep 0 s) =
      (CDaemonCV.Pc.atWait, CDaemonCV.Sleep 0 s) := by
    intro n
    induction n with
    | zero => rfl
    | succ n ih =>
      rw [CDaemonCV.runWorker_succ, hstep]
      exact ih
  refine ⟨by rw [hS], hwp, hstep, hrunN, ?_⟩
  intro n
  rw [hrunN n, hS]

/-- Witness for C10 at a concrete idle worker. -/
theorem C10_sleep_zero_lost_witness :
    ((⟨[], true, false, 0, false, [], []⟩ : CDaemonCV.DState Int).bIsSleeping = false ∧
     (⟨[], true, false, 0, false, [], []⟩ : CDaemonCV.DState Int).queue = [] ∧
     (⟨[], true, false, 0, false, [], []⟩ : CDaemonCV.DState Int).bIsRunning = true) ∧
    CDaemonCV.waitPred (CDaemonCV.Sleep 0
      (⟨[], true, false, 0, false, [], []⟩ : CDaemonCV.DState Int)) = false ∧
    CDaemonCV.runWorker 5 CDaemonCV.Pc.atWait (CDaemonCV.Sleep 0
      (⟨[], true, false, 0, false, [], []⟩ : CDaemonCV.DState Int)) =
      (CDaemonCV.Pc.atWait, CDaemonCV.Sleep 0
        (⟨[], true, false, 0, false, [], []⟩ : CDaemonCV.DState Int)) :=
  ⟨⟨rfl, rfl, rfl⟩,
   (C10_sleep_zero_lost (⟨[], true, false, 0, false, [], []⟩ : CDaemonCV.DState Int)
     rfl rfl rfl).2.1,
   (C10_sleep_zero_lost (⟨[], true, false, 0, false, [], []⟩ : CDaemonCV.DState Int)
     rfl rfl rfl).2.2.2.1 5⟩

/-- Counterexample to C4 as stated: two sleep requests issued to an idle
worker are both accepted (the sleeping flag is false at both calls, since
the worker has not yet observed the first request), yet the second
overwrites the first stored duration, and the worker pauses exactly once,
for 5 ms — the accepted 7 ms request never causes a pause.  After that the
worker is back at the wait with its predicate false, so no further pause
can occur. -/
theorem C4_overwritten_request_counterexample :
    ((⟨[], true, false, 0, false, [], []⟩ : CDaemonCV.DState Int).bIsSleeping = false) ∧
    ((CDaemonCV.Sleep 7
      (⟨[], true, false, 0, false, [], []⟩ : CDaemonCV.DState Int)).bIsSleeping = false) ∧
    (CDaemonCV.runWorker 10 CDaemonCV.Pc.atWait
      (CDaemonCV.Sleep 5 (CDaemonCV.Sleep 7
        (⟨[], true, false, 0, false, [], []⟩ : CDaemonCV.DState Int)))).2.slept = [5] ∧
    (CDaemonCV.runWorker 10 CDaemonCV.Pc.atWait
      (CDaemonCV.Sleep 5 (CDaemonCV.Sleep 7
        (⟨[], true, false, 0, false, [], []⟩ : CDaemonCV.DState Int)))).1 = CDaemonCV.Pc.atWait ∧
    CDaemonCV.waitPred (CDaemonCV.runWorker 10 CDaemonCV.Pc.atWait
      (CDaemonCV.Sleep 5 (CDaemonCV.Sleep 7
        (⟨[], true, false, 0, false, [], []⟩ : CDaemonCV.DState Int)))).2 = false := by
  decide
